import Mathlib

/-!
Verification development for the WatchFinder repository.

The definitions below are shallow embeddings of the functions in
`src/scraper.py`, `src/database.py` and `src/price_checker.py`:
pure Python functions become Lean functions over `List Char` / `String` / `ℚ`,
the SQLite listing table becomes an explicit list of rows, and the two
adapter run loops become recursions over a list of fetched-page outcomes,
with the network and the per-item worker results supplied as oracles.
-/

namespace WatchFinder

/-! ## Character and string helpers (Python `str` operations) -/

/-- Python `\s` for the ASCII whitespace characters (re module default set). -/
def wsCh (c : Char) : Bool :=
  c = ' ' || c = '\t' || c = '\n' || c = '\r' || c = '\x0b' || c = '\x0c'

def digitCh (c : Char) : Bool := '0' ≤ c && c ≤ '9'

/-- Python `\w` word character (ASCII approximation of the re module class). -/
def wordCh (c : Char) : Bool := c.isAlphanum || c = '_'

/-- `s.lower()` as a character list. -/
def lowerL (s : String) : List Char := s.toList.map Char.toLower

/-- `s.upper()` as a character list. -/
def upperL (s : String) : List Char := s.toList.map Char.toUpper

/-- Strip an expected literal from the front: `some rest` iff `lit` is a prefix. -/
def stripLit : List Char → List Char → Option (List Char)
  | [], l => some l
  | _, [] => none
  | a :: as, c :: cs => if a = c then stripLit as cs else none

/-- `lit.isPrefixOf l` for our purposes, via `stripLit`. -/
def isLitPre (lit l : List Char) : Bool := (stripLit lit l).isSome

/-- Python `haystack.find(needle)` (first index of an occurrence), as an `Option`. -/
def subAt? (key : List Char) : List Char → Option Nat
  | [] => if isLitPre key [] then some 0 else none
  | c :: cs => if isLitPre key (c :: cs) then some 0 else (subAt? key cs).map (· + 1)

/-- Python `needle in haystack` substring test. -/
def containsSub (hay needle : List Char) : Bool := (subAt? needle hay).isSome

/-! ## Brand extraction (`scraper.py`: `BRAND_ALIASES`, `extract_brand`) -/

/-- `BRAND_ALIASES` in `scraper.py`, in dict insertion order. -/
def brandAliases : List (String × String) := [
  ("audemars piguet", "Audemars Piguet"),
  ("patek philippe", "Patek Philippe"),
  ("vacheron constantin", "Vacheron Constantin"),
  ("grand seiko", "Grand Seiko"),
  ("tag heuer", "TAG Heuer"),
  ("jaeger-lecoultre", "Jaeger-LeCoultre"),
  ("jaeger lecoultre", "Jaeger-LeCoultre"),
  ("a. lange", "A. Lange & Söhne"),
  ("lange & sohne", "A. Lange & Söhne"),
  ("gmt-master", "Rolex"),
  ("gmt master", "Rolex"),
  ("datejust", "Rolex"),
  ("submariner", "Rolex"),
  ("daytona", "Rolex"),
  ("sea-dweller", "Rolex"),
  ("sky-dweller", "Rolex"),
  ("milgauss", "Rolex"),
  ("yacht-master", "Rolex"),
  ("day-date", "Rolex"),
  ("air-king", "Rolex"),
  ("explorer", "Rolex"),
  ("rolex", "Rolex"),
  ("tudor", "Tudor"),
  ("omega", "Omega"),
  ("breitling", "Breitling"),
  ("navitimer", "Breitling"),
  ("panerai", "Panerai"),
  ("luminor", "Panerai"),
  ("radiomir", "Panerai"),
  ("cartier", "Cartier"),
  ("blancpain", "Blancpain"),
  ("zenith", "Zenith"),
  ("hublot", "Hublot"),
  ("patek", "Patek Philippe"),
  ("seiko", "Seiko"),
  ("audemars", "Audemars Piguet"),
  ("royal oak", "Audemars Piguet"),
  ("vacheron", "Vacheron Constantin"),
  ("iwc", "IWC"),
  ("jaeger", "Jaeger-LeCoultre"),
  ("jlc", "Jaeger-LeCoultre"),
  ("lange", "A. Lange & Söhne")]

/-- One step of the scan loop in `extract_brand`: keep the alias whose keyword
occurs strictly earlier than the best so far. -/
def brandStep (lower : List Char) (acc : Nat × Option String) (kv : String × String) :
    Nat × Option String :=
  match subAt? kv.1.toList lower with
  | some p => if p < acc.1 then (p, some kv.2) else acc
  | none => acc

/-- `extract_brand` in `scraper.py`. -/
def extractBrand (text : String) : Option String :=
  let lower := lowerL text
  (brandAliases.foldl (brandStep lower) (lower.length, none)).2

/-- Invariant of the `extract_brand` scan loop after processing the aliases in `P`:
the accumulator holds the value of a leftmost-occurring processed keyword
(ties broken by table order), or `none` when no processed keyword occurs. -/
def brandGood (lower : List Char) (P : List (String × String))
    (acc : Nat × Option String) : Prop :=
  acc.1 ≤ lower.length ∧
  (acc.2 = none → acc.1 = lower.length ∧ ∀ kv ∈ P, subAt? kv.1.toList lower = none) ∧
  (∀ b, acc.2 = some b →
    (∃ kv ∈ P, kv.2 = b ∧ subAt? kv.1.toList lower = some acc.1) ∧
    ∀ kv ∈ P, ∀ p, subAt? kv.1.toList lower = some p → acc.1 ≤ p)

/-! ## Model extraction (`scraper.py`: `ROLEX_MODELS`, `extract_model`) -/

/-- `ROLEX_MODELS` in `scraper.py`, in dict insertion order. -/
def rolexModels : List (String × String) := [
  ("datejust", "Datejust"),
  ("submariner", "Submariner"),
  ("daytona", "Daytona"),
  ("gmt-master ii", "GMT-Master II"),
  ("gmt-master", "GMT-Master II"),
  ("gmt master", "GMT-Master II"),
  ("explorer ii", "Explorer II"),
  ("explorer", "Explorer"),
  ("air-king", "Air-King"),
  ("milgauss", "Milgauss"),
  ("sea-dweller", "Sea-Dweller"),
  ("sky-dweller", "Sky-Dweller"),
  ("yacht-master", "Yacht-Master"),
  ("day-date", "Day-Date"),
  ("president", "Day-Date"),
  ("cellini", "Cellini"),
  ("pearlmaster", "Pearlmaster"),
  ("oysterquartz", "Oysterquartz")]

/-- `sorted(ROLEX_MODELS.items(), key=lambda x: -len(x[0]))` — a stable sort by
descending key length. -/
def rolexModelsSorted : List (String × String) :=
  rolexModels.mergeSort (fun a b => b.1.length ≤ a.1.length)

/-- `extract_model` in `scraper.py`. -/
def extractModel (text : String) (brand : Option String) : Option String :=
  match brand with
  | none => none
  | some b =>
    if (b != "") && containsSub (lowerL b) ("rolex".toList) then
      ((rolexModelsSorted.find? (fun kv => containsSub (lowerL text) kv.1.toList)).map
        Prod.snd)
    else none

/-! ## Price extraction (`scraper.py`: `PRICE_RE`, `extract_price`)

`PRICE_RE` is an ordered alternation of six branches, each capturing one numeric
group.  The scanner below embeds `PRICE_RE.finditer` over the lowercased text
(the pattern is compiled with `re.IGNORECASE`): at each position the branches
are tried in pattern order, the first branch that matches wins, and scanning
resumes after the end of the match. -/

def digitCommaCh (c : Char) : Bool := digitCh c || c = ','

def digitCommaDotCh (c : Char) : Bool := digitCh c || c = ',' || c = '.'

/-- The guard tokens of the karat lookahead: `YG|WG|RG|SS|gold|white|yellow|rose|ct|carat|karat`. -/
def karatGuardWords : List (List Char) :=
  (["yg", "wg", "rg", "ss", "gold", "white", "yellow", "rose", "ct", "carat",
    "karat"]).map String.toList

def anyPre (ws : List (List Char)) (l : List Char) : Bool := ws.any (fun w => isLitPre w l)

/-- The negative-lookahead body `\s*\/?\s*(?:YG|…|karat)` that follows the `k` of the
`8.5k` branch. -/
def karatLook (l : List Char) : Bool :=
  let a := l.dropWhile wsCh
  let b := match a with | '/' :: t => t | _ => a
  anyPre karatGuardWords (b.dropWhile wsCh)

/-- The karat guard of `extract_price` on `text[end+1:end+9]`:
`.lstrip("/").lstrip()` then `re.match(r"YG|…|karat", …, re.I)`. -/
def karatAfter (l : List Char) : Bool :=
  anyPre karatGuardWords (((l.take 8).dropWhile (· = '/')).dropWhile wsCh)

/-- Greedy `[\d,]+(?:\.\d{1,2})?` with nothing after it (branches 1, 4 and 5).
Returns (captured characters, remaining text). -/
def numOpt (l : List Char) : Option (List Char × List Char) :=
  match l.span digitCommaCh with
  | ([], _) => none
  | (ds, r1) =>
    match r1 with
    | '.' :: r2 =>
      let f := (r2.takeWhile digitCh).take 2
      if f.isEmpty then some (ds, r1) else some (ds ++ '.' :: f, r2.drop f.length)
    | _ => some (ds, r1)

/-- The backtracking alternatives of `(?:\.\d{1,2})?` in greedy order:
two fractional digits, one, then none, each with the remaining text. -/
def fracAlts : List Char → List (List Char × List Char)
  | '.' :: r2 =>
    (match r2 with
     | a :: b :: r3 =>
       if digitCh a && digitCh b then [(['.', a, b], r3), (['.', a], b :: r3)]
       else if digitCh a then [(['.', a], b :: r3)]
       else []
     | [a] => if digitCh a then [(['.', a], [])] else []
     | [] => []) ++ [([], '.' :: r2)]
  | r1 => [([], r1)]

/-- `[\d,]+(?:\.\d{1,2})?` followed by a required suffix (branches 2 and 6):
the first fractional alternative whose remainder matches the suffix wins. -/
def numSfx (sfx : List Char → Option (List Char)) (l : List Char) :
    Option (List Char × List Char) :=
  match l.span digitCommaCh with
  | ([], _) => none
  | (ds, r1) => (fracAlts r1).findSome? fun fr => (sfx fr.2).map fun r' => (ds ++ fr.1, r')

/-- Word-boundary after a word character: next char is a non-word char or the end. -/
def wordBd (l : List Char) : Bool :=
  match l with
  | [] => true
  | c :: _ => !(wordCh c)

/-- Suffix `\s*USD` of branch 2. -/
def sfxUsd (r : List Char) : Option (List Char) := stripLit "usd".toList (r.dropWhile wsCh)

/-- Suffix `\s*(?:obo|shipped|firm|tyd)\b` of branch 6. -/
def sfxSale (r : List Char) : Option (List Char) :=
  let r' := r.dropWhile wsCh
  ((["obo", "shipped", "firm", "tyd"]).map String.toList).findSome? fun w =>
    (stripLit w r').bind fun r'' => if wordBd r'' then some r'' else none

/-- Branch 1: `\$\s*([\d,]+(?:\.\d{1,2})?)`. -/
def branchDollar (l : List Char) : Option (List Char × List Char) :=
  match l with
  | '$' :: r => numOpt (r.dropWhile wsCh)
  | _ => none

/-- Branch 2: `([\d,]+(?:\.\d{1,2})?)\s*USD`. -/
def branchUsdSfx (l : List Char) : Option (List Char × List Char) := numSfx sfxUsd l

/-- Branch 3: `([\d,.]+)\s*k(?!\s*\/?\s*(?:YG|…|karat))\b`. -/
def branchK (l : List Char) : Option (List Char × List Char) :=
  match l.span digitCommaDotCh with
  | ([], _) => none
  | (cap, r1) =>
    match r1.dropWhile wsCh with
    | 'k' :: r3 => if !karatLook r3 && wordBd r3 then some (cap, r3) else none
    | _ => none

/-- Branch 4: `USD\s*([\d,]+(?:\.\d{1,2})?)`. -/
def branchUsdPre (l : List Char) : Option (List Char × List Char) :=
  (stripLit "usd".toList l).bind fun r => numOpt (r.dropWhile wsCh)

/-- The prefix `(?:asking|priced?\s*(?:at|:)?)` of branch 5. -/
def askPre (l : List Char) : Option (List Char) :=
  match stripLit "asking".toList l with
  | some r => some r
  | none =>
    (stripLit "price".toList l).map fun r =>
      let r1 := match r with | 'd' :: t => t | _ => r
      let r2 := r1.dropWhile wsCh
      match stripLit "at".toList r2 with
      | some r3 => r3
      | none => match r2 with | ':' :: t => t | _ => r2

/-- Branch 5: `(?:asking|priced?\s*(?:at|:)?)\s*\$?\s*([\d,]+(?:\.\d{1,2})?)`. -/
def branchAsk (l : List Char) : Option (List Char × List Char) :=
  (askPre l).bind fun r =>
    let r1 := r.dropWhile wsCh
    let r2 := match r1 with | '$' :: t => t.dropWhile wsCh | _ => r1
    numOpt r2

/-- Branch 6: `([\d,]+(?:\.\d{1,2})?)\s*(?:obo|shipped|firm|tyd)\b`. -/
def branchSale (l : List Char) : Option (List Char × List Char) := numSfx sfxSale l

/-- One `PRICE_RE` match: whether the k-multiplier group (group 3) matched, the
captured numeric group, and the text after the end of the whole match. -/
structure PMatch where
  kGroup : Bool
  raw : List Char
  rest : List Char
deriving DecidableEq

/-- Try the six branches of `PRICE_RE` at one position, in pattern order. -/
def tryMatch (l : List Char) : Option PMatch :=
  match branchDollar l with
  | some (c, r) => some ⟨false, c, r⟩
  | none =>
  match branchUsdSfx l with
  | some (c, r) => some ⟨false, c, r⟩
  | none =>
  match branchK l with
  | some (c, r) => some ⟨true, c, r⟩
  | none =>
  match branchUsdPre l with
  | some (c, r) => some ⟨false, c, r⟩
  | none =>
  match branchAsk l with
  | some (c, r) => some ⟨false, c, r⟩
  | none =>
  match branchSale l with
  | some (c, r) => some ⟨false, c, r⟩
  | none => none

/-- `PRICE_RE.finditer`: scan left to right, resuming after each match.  Every
branch consumes at least one character, so fuel `length + 1` is never exhausted. -/
def scanAux : Nat → List Char → List PMatch
  | 0, _ => []
  | _ + 1, [] => []
  | n + 1, l@(_ :: cs) =>
    match tryMatch l with
    | some m => m :: scanAux n m.rest
    | none => scanAux n cs

/-- All `PRICE_RE` matches of a text (case-insensitively, via lowercasing). -/
def priceMatches (s : String) : List PMatch :=
  let lower := lowerL s
  scanAux (lower.length + 1) lower

/-- Multiplication of a rational by an integer, in a kernel-reducible form. -/
def qmulInt (v : ℚ) (n : ℤ) : ℚ := mkRat (v.num * n) v.den

/-- Exact division of rationals, in a kernel-reducible form. -/
def qdiv (a b : ℚ) : ℚ := Rat.divInt (a.num * (b.den : ℤ)) ((a.den : ℤ) * b.num)

/-- Digit characters to a natural number. -/
def natDigits (l : List Char) : Nat := l.foldl (fun a c => a * 10 + (c.toNat - 48)) 0

/-- Python `float(raw)` on the digit/dot strings that reach it: `"12"`, `"1.5"`,
`".5"`, `"5."` parse; `""`, `"1.2.3"` and stray characters raise `ValueError`. -/
def pyFloat (l : List Char) : Option ℚ :=
  match l.span (fun c => !(c == '.')) with
  | (ip, []) => if !ip.isEmpty && ip.all digitCh then some (natDigits ip) else none
  | (ip, '.' :: fp) =>
    if ip.all digitCh && fp.all digitCh && (!ip.isEmpty || !fp.isEmpty) then
      some (mkRat (natDigits ip * 10 ^ fp.length + natDigits fp) (10 ^ fp.length))
    else none
  | _ => none

/-- The European-decimal shape `^\d+,\d{1,2}$` tested on a k-suffixed capture. -/
def euroShape (l : List Char) : Bool :=
  match l.span digitCh with
  | ([], _) => false
  | (_, ',' :: fp) => !fp.isEmpty && fp.all digitCh && (fp.length == 1 || fp.length == 2)
  | _ => false

/-- The per-match candidate value computed by the loop body of `extract_price`:
k-promotion of a bare number directly followed by `k` (unless the karat guard
fires), European-comma handling, comma removal, parse, k-multiplication. -/
def candVal (m : PMatch) : Option ℚ :=
  let kFlag := m.kGroup ||
    (match m.rest with
     | 'k' :: r => !karatAfter r
     | _ => false)
  let raw :=
    if kFlag && euroShape m.raw then m.raw.map (fun c => if c = ',' then '.' else c)
    else m.raw.filter (fun c => !(c == ','))
  (pyFloat raw).map fun v => if kFlag then qmulInt v 1000 else v

/-- Floor of a rational (the denominator is always positive, so Euclidean
division of the numerator is the floor). -/
def qfloor (q : ℚ) : ℤ := Int.ediv q.num (q.den : ℤ)

/-- Round to the nearest integer, ties to even (Python `round`): the fractional
part `x - n = (x.num - n*x.den)/x.den` is compared with `1/2` by cross-multiplying. -/
def roundHE (x : ℚ) : ℤ :=
  let n := qfloor x
  let r := 2 * (x.num - n * (x.den : ℤ))
  if r < (x.den : ℤ) then n
  else if (x.den : ℤ) < r then n + 1
  else if n % 2 = 0 then n else n + 1

/-- Python `round(x, 2)`: `roundHE (x * 100) / 100`. -/
def round2 (x : ℚ) : ℚ := mkRat (roundHE (qmulInt x 100)) 100

/-- Python `round(x, 1)`: `roundHE (x * 10) / 10`. -/
def round1 (x : ℚ) : ℚ := mkRat (roundHE (qmulInt x 10)) 10

/-- The plausible resale-price band `100 <= val <= 500_000`. -/
def inBand (v : ℚ) : Bool := decide (100 ≤ v) && decide (v ≤ 500000)

/-- The match loop of `extract_price`: the first candidate whose value parses and
lies within the band is returned (rounded to two decimals); others are skipped. -/
def pickPrice : List PMatch → Option ℚ
  | [] => none
  | m :: ms =>
    match candVal m with
    | some v => if inBand v then some (round2 v) else pickPrice ms
    | none => pickPrice ms

/-- `extract_price` in `scraper.py`. -/
def extractPrice (s : String) : Option ℚ := pickPrice (priceMatches s)

/-! ## Price rating (`price_checker.py`: `rate_price`, `check_price`) -/

/-- `rate_price` in `price_checker.py`: `(rating_label, pct_of_market)` for a
listing price against a market price.  The thresholds are
`GREAT_THRESHOLD = 0.90`, `GOOD_THRESHOLD = 1.00`, `FAIR_THRESHOLD = 1.10`. -/
def ratePrice (listingPrice marketPrice : ℚ) : String × ℚ :=
  if marketPrice ≤ 0 then ("N/A", 0)
  else
    let t := qdiv listingPrice marketPrice
    (if t ≤ mkRat 9 10 then "Great"
     else if t ≤ 1 then "Good"
     else if t ≤ mkRat 11 10 then "Fair"
     else "High", t)

/-- The result fields of `check_price` that the claims are about. -/
structure PCResult where
  rating : String
  marketOut : Option ℚ
  pctOfMarket : Option ℚ
deriving DecidableEq

/-- The deterministic tail of `check_price` in `price_checker.py`, with the
resolved market price (the outcome of the network fallback chain, which only
ever yields a positive value or nothing) passed as a parameter.  `not
listing_price or listing_price <= 0` collapses to `≤ 0` and `not market_price`
to absent-or-zero. -/
def checkPrice (listingPrice : ℚ) (marketPrice : Option ℚ) : PCResult :=
  if listingPrice ≤ 0 then ⟨"N/A", none, none⟩
  else
    match marketPrice with
    | none => ⟨"N/A", none, none⟩
    | some m =>
      if m = 0 then ⟨"N/A", none, none⟩
      else
        let rt := ratePrice listingPrice m
        ⟨rt.1, some (round2 m), some (round1 (qmulInt rt.2 100))⟩

/-! ## Marketplace median (`price_checker.py`: `_get_market_price_from_marketplace`) -/

/-- One listing item of the marketplace page: its optional `price` and `amount`
JSON fields. -/
structure MarketItem where
  priceField : Option ℚ
  amountField : Option ℚ
deriving DecidableEq

/-- `item.get("price") or item.get("amount")`: Python `or` falls through on a
missing or zero (falsy) price. -/
def itemPrice (it : MarketItem) : Option ℚ :=
  match it.priceField with
  | some p => if p = 0 then it.amountField else some p
  | none => it.amountField

/-- The collected `prices` list: numeric, strictly positive values only. -/
def positivePrices (items : List MarketItem) : List ℚ :=
  items.filterMap fun it => (itemPrice it).bind fun p => if 0 < p then some p else none

/-- The pure core of `_get_market_price_from_marketplace`: sort the positive
prices ascending and return the element at index `len // 2`. -/
def marketplaceMedian (items : List MarketItem) : Option ℚ :=
  let ps := positivePrices items
  if ps.isEmpty then none
  else some ((List.insertionSort (· ≤ ·) ps).getD (ps.length / 2) 0)

/-! ## Listings store (`database.py`: `upsert_listing`)

The `listings` table becomes a list of rows plus an AUTOINCREMENT counter; the
payload dict becomes a structure of optional fields (`data.get(...)`), with
`raw_json` holding the serialized `extra`. -/

/-- A listing payload passed to `upsert_listing` (`data.get` fields). -/
structure Payload where
  listing_url : String
  source_id : Option Nat := none
  title : Option String := none
  brand : Option String := none
  model : Option String := none
  reference : Option String := none
  year : Option Int := none
  price : Option ℚ := none
  currency : Option String := none
  condition : Option String := none
  seller : Option String := none
  description : Option String := none
  image_url : Option String := none
  date_listed : Option String := none
  price_rating : Option String := none
  market_price : Option ℚ := none
  price_delta_pct : Option ℚ := none
  watchcharts_url : Option String := none
  extraJson : String := "\x7b\x7d"
deriving DecidableEq

/-- A row of the `listings` table. -/
structure LRow where
  id : Nat
  source_id : Option Nat
  title : Option String
  brand : Option String
  model : Option String
  reference : Option String
  year : Option Int
  price : Option ℚ
  currency : String
  condition : Option String
  seller : Option String
  listing_url : String
  description : Option String
  image_url : Option String
  date_listed : Option String
  date_found : String
  price_rating : Option String
  market_price : Option ℚ
  price_delta_pct : Option ℚ
  watchcharts_url : Option String
  is_active : Nat
  raw_json : String
deriving DecidableEq

/-- The UPDATE branch of `upsert_listing`: set every mutable field from the
payload and `is_active=1`; `id`, `listing_url`, `source_id` and `date_found`
are not in the SET list. -/
def applyUpdate (d : Payload) (r : LRow) : LRow :=
  { r with
    title := d.title, brand := d.brand, model := d.model,
    reference := d.reference, year := d.year, price := d.price,
    currency := d.currency.getD "USD", condition := d.condition,
    seller := d.seller, description := d.description,
    image_url := d.image_url, date_listed := d.date_listed,
    price_rating := d.price_rating, market_price := d.market_price,
    price_delta_pct := d.price_delta_pct, watchcharts_url := d.watchcharts_url,
    raw_json := d.extraJson, is_active := 1 }

/-- The INSERT branch of `upsert_listing`: a fresh row with `date_found := now`
and the schema default `is_active = 1`. -/
def newRow (now : String) (rowId : Nat) (d : Payload) : LRow :=
  { id := rowId, source_id := d.source_id, title := d.title, brand := d.brand,
    model := d.model, reference := d.reference, year := d.year, price := d.price,
    currency := d.currency.getD "USD", condition := d.condition, seller := d.seller,
    listing_url := d.listing_url, description := d.description,
    image_url := d.image_url, date_listed := d.date_listed, date_found := now,
    price_rating := d.price_rating, market_price := d.market_price,
    price_delta_pct := d.price_delta_pct, watchcharts_url := d.watchcharts_url,
    is_active := 1, raw_json := d.extraJson }

/-- The `listings` store: rows plus the AUTOINCREMENT counter. -/
structure DBState where
  rows : List LRow
  nextId : Nat
deriving DecidableEq

/-- `upsert_listing` in `database.py`: look up by `listing_url`; update the
matching rows and return the existing id, or insert a fresh row and return the
new id.  Returns `((id, is_new), store)`. -/
def upsertListing (now : String) (d : Payload) (db : DBState) :
    (Nat × Bool) × DBState :=
  match db.rows.find? (fun r => r.listing_url == d.listing_url) with
  | some r =>
    ((r.id, false),
     { db with rows := db.rows.map fun q =>
        if q.listing_url == d.listing_url then applyUpdate d q else q })
  | none =>
    ((db.nextId, true),
     { rows := db.rows ++ [newRow now db.nextId d], nextId := db.nextId + 1 })

/-! ## Adapter run skeletons (`scraper.py`: `RolexForumsScraper.run`,
`RedditWatchexchangeScraper.run`, `run_all_scrapers`)

The pagination loops are embedded as recursions over the list of index-page
outcomes the network would deliver (one entry per loop iteration); the per-item
network/parse/db effects are supplied as oracles, and the store's
`listing_url_exists`/`upsert` behaviour as a threaded list of known URLs. -/

/-- Shared per-run counters: the `stats` dict keys `pages`, `threads`, `new`,
`updated`, `priced`, `errors`, `blocked` of both adapters. -/
structure RunStats where
  pages : Nat := 0
  threads : Nat := 0
  newCount : Nat := 0
  updatedCount : Nat := 0
  pricedCount : Nat := 0
  errorCount : Nat := 0
  blocked : Bool := false
deriving DecidableEq

/-- The want-to-buy marker words of `is_for_sale`. -/
def wtbMarkers : List (List Char) :=
  (["wtb", "iso", "in search of", "want to buy", "wantto buy"]).map String.toList

/-- `\bw\b` search: an occurrence of `w` with a non-word character (or the text
edge) on both sides.  `prev` says whether the previous character was a word
character. -/
def hasWord (w : List Char) : List Char → Bool → Bool
  | [], _ => false
  | c :: cs, prev =>
    (!prev && (match stripLit w (c :: cs) with
               | some r => wordBd r
               | none => false)) || hasWord w cs (wordCh c)

/-- `is_for_sale` in `scraper.py`: the title carries no want-to-buy marker. -/
def isForSale (title : String) : Bool :=
  !(wtbMarkers.any fun w => hasWord w (lowerL title) false)

/-- A stub parsed from a forum index page. -/
structure Stub where
  title : String
  url : String
deriving DecidableEq

/-- The worker-pool outcome for one new stub of the forum adapter. -/
inductive StubRes
  | workerErr
  | parseNone
  | dbErr
  | parsed (priced : Bool)
deriving DecidableEq

/-- A forum index page fetch outcome. -/
inductive FPage
  | fetchFail
  | fetched (stubs : List Stub)
deriving DecidableEq

/-- One completed worker of the forum run: the error/parse/upsert accounting of
the `as_completed` loop body. -/
def stepStub (res : StubRes) (url : String) (known : List String) (st : RunStats) :
    List String × RunStats :=
  match res with
  | .workerErr => (known, { st with errorCount := st.errorCount + 1 })
  | .parseNone =>
    (known, { st with threads := st.threads + 1, errorCount := st.errorCount + 1 })
  | .dbErr =>
    (known, { st with threads := st.threads + 1, errorCount := st.errorCount + 1 })
  | .parsed priced =>
    let isNew := !known.contains url
    (url :: known,
     { st with
       threads := st.threads + 1,
       pricedCount := if priced then st.pricedCount + 1 else st.pricedCount,
       newCount := if isNew then st.newCount + 1 else st.newCount,
       updatedCount := if isNew then st.updatedCount else st.updatedCount + 1 })

/-- Fold the worker outcomes over a page's new stubs. -/
def procStubs (oracle : Stub → StubRes) :
    List Stub → List String → RunStats → List String × RunStats
  | [], known, st => (known, st)
  | sb :: rest, known, st =>
    let out := stepStub (oracle sb) sb.url known st
    procStubs oracle rest out.1 out.2

/-- `RolexForumsScraper.run`: iterate the index pages; a fetch failure
increments errors, sets `blocked` and breaks; an empty parse increments errors
and breaks; otherwise the for-sale, not-yet-known stubs are processed and the
loop continues. -/
def forumRun (oracle : Stub → StubRes) :
    List FPage → List String → RunStats → RunStats
  | [], _, st => st
  | .fetchFail :: _, _, st =>
    { st with errorCount := st.errorCount + 1, blocked := true }
  | .fetched stubs :: rest, known, st =>
    if stubs.isEmpty then { st with errorCount := st.errorCount + 1 }
    else
      let ns := stubs.filter fun sb => isForSale sb.title && !known.contains sb.url
      let out := procStubs oracle ns known { st with pages := st.pages + 1 }
      forumRun oracle rest out.1 out.2

/-- A post stub of the community-feed page. -/
structure RChild where
  title : String
  flair : String
  url : String
deriving DecidableEq

/-- The processing outcome for one new post of the feed adapter. -/
inductive ChildRes
  | parseNone
  | exnErr
  | parsed (priced : Bool)
deriving DecidableEq

/-- A feed page fetch outcome (`_get` returning nothing, HTTP 403/429, a JSON
error, or a parsed page with its continuation cursor). -/
inductive RResp
  | fetchFail
  | http403
  | http429
  | jsonErr
  | page (children : List RChild) (cursor : Option String)
deriving DecidableEq

/-- `"WTB" in flair.upper() or "ISO" in flair.upper()`. -/
def flairBlocked (f : String) : Bool :=
  containsSub (upperL f) ("WTB".toList) || containsSub (upperL f) ("ISO".toList)

/-- The loop body over one feed post: pre-filters (for-sale, flair, known URL),
then parse/price/upsert accounting; third component counts `new_on_page`. -/
def stepChild (oracle : RChild → ChildRes) (acc : List String × RunStats × Nat)
    (c : RChild) : List String × RunStats × Nat :=
  let known := acc.1
  let st := { acc.2.1 with threads := acc.2.1.threads + 1 }
  let newC := acc.2.2
  if !(isForSale c.title) then (known, st, newC)
  else if flairBlocked c.flair then (known, st, newC)
  else if known.contains c.url then (known, st, newC)
  else
    match oracle c with
    | .parseNone => (known, st, newC + 1)
    | .exnErr => (known, { st with errorCount := st.errorCount + 1 }, newC + 1)
    | .parsed priced =>
      let isNew := !known.contains c.url
      (c.url :: known,
       { st with
         pricedCount := if priced then st.pricedCount + 1 else st.pricedCount,
         newCount := if isNew then st.newCount + 1 else st.newCount,
         updatedCount := if isNew then st.updatedCount else st.updatedCount + 1 },
       newC + 1)

/-- Python-falsy continuation cursor: absent or the empty string. -/
def cursorDone : Option String → Bool
  | none => true
  | some s => s == ""

/-- `RedditWatchexchangeScraper.run`: iterate the feed pages; a failed fetch or
403 sets `blocked` and breaks, 429 retries (consuming a loop iteration), a JSON
error breaks, an empty page breaks; otherwise the posts are processed and the
loop breaks when the cursor is falsy or the page contributed zero new posts. -/
def redditRun (oracle : RChild → ChildRes) :
    List RResp → List String → RunStats → RunStats
  | [], _, st => st
  | .fetchFail :: _, _, st =>
    { st with errorCount := st.errorCount + 1, blocked := true }
  | .http403 :: _, _, st =>
    { st with errorCount := st.errorCount + 1, blocked := true }
  | .jsonErr :: _, _, st => { st with errorCount := st.errorCount + 1 }
  | .http429 :: rest, known, st => redditRun oracle rest known st
  | .page children cursor :: rest, known, st =>
    if children.isEmpty then st
    else
      let out := children.foldl (stepChild oracle)
        (known, { st with pages := st.pages + 1 }, 0)
      if cursorDone cursor then out.2.1
      else if out.2.2 = 0 then out.2.1
      else redditRun oracle rest out.1 out.2.1

/-- A per-adapter result dict as `run_all_scrapers` sees it: numeric entries
(an error entry has none of the counter keys) and an optional `blocked` entry. -/
structure RawStats where
  counters : List (String × Nat)
  blockedFlag : Option Bool
deriving DecidableEq

/-- `s.get(key, 0)`. -/
def getCounter (s : RawStats) (k : String) : Nat := (s.counters.lookup k).getD 0

/-- `s.get("blocked", False)`. -/
def getBlocked (s : RawStats) : Bool := s.blockedFlag.getD false

/-- The combined dict built by `run_all_scrapers`. -/
structure CombinedStats where
  sourcesList : List RawStats
  counters : List (String × Nat)
  blocked : Bool
deriving DecidableEq

/-- The aggregation at the end of `run_all_scrapers`: sums of `new`, `updated`,
`priced`, `errors`, and the disjunction of the `blocked` flags. -/
def combineStats (l : List RawStats) : CombinedStats :=
  { sourcesList := l,
    counters := [
      ("new", (l.map (fun s => getCounter s "new")).sum),
      ("updated", (l.map (fun s => getCounter s "updated")).sum),
      ("priced", (l.map (fun s => getCounter s "priced")).sum),
      ("errors", (l.map (fun s => getCounter s "errors")).sum)],
    blocked := l.any getBlocked }

/-! ## Comment selection (`scraper.py`: `RedditWatchexchangeScraper._fetch_op_comment`) -/

/-- A comment of a post's thread. -/
structure RComment where
  author : String
  body : String
deriving DecidableEq

/-- The kept comments: non-empty, non-deleted, non-removed bodies from authors
other than AutoModerator. -/
def keptComments (cs : List RComment) : List RComment :=
  cs.filter fun c =>
    !(c.body == "") && !(c.body == "[deleted]") && !(c.body == "[removed]") &&
    !(lowerL c.author == ("automoderator".toList))

/-- The original poster's comment bodies (`op_author` must be non-empty and
match case-insensitively). -/
def opComments (opAuthor : String) (cs : List RComment) : List String :=
  (keptComments cs).filterMap fun c =>
    if opAuthor != "" && (lowerL c.author == lowerL opAuthor) then some c.body
    else none

/-- All kept comment bodies (`non_mod_comments`). -/
def nonModComments (cs : List RComment) : List String :=
  (keptComments cs).map RComment.body

/-- `PRICE_RE.search(b)` is truthy. -/
def hasPricePattern (b : String) : Bool := !(priceMatches b).isEmpty

/-- Python `max(l, key=len)`: the first string of maximal length. -/
def maxByLen (l : List String) : String :=
  match l with
  | [] => ""
  | x :: xs => xs.foldl (fun b s => if b.length < s.length then s else b) x

/-- `_fetch_op_comment`'s selection over the fetched comments: OP comments are
preferred as candidates; among candidates, those containing a price pattern are
preferred; the longest wins. -/
def fetchOpComment (opAuthor : String) (cs : List RComment) : String :=
  let ops := opComments opAuthor cs
  let candidates := if !ops.isEmpty then ops else nonModComments cs
  let withPrice := candidates.filter hasPricePattern
  if !withPrice.isEmpty then maxByLen withPrice
  else if !candidates.isEmpty then maxByLen candidates
  else ""

/-- A sample payload for concrete instantiations. -/
def samplePayload : Payload := { listing_url := "u1" }

/-- A sample store holding one row for `samplePayload`'s URL. -/
def sampleStore : DBState := (upsertListing "t0" samplePayload ⟨[], 5⟩).2

/-! ## Helper lemmas -/

theorem qdiv_eq_div (a b : ℚ) : qdiv a b = a / b := by
  rw [qdiv, Rat.divInt_eq_div]
  by_cases hb : b = 0
  · subst hb
    simp
  · have hbn : (b.num : ℚ) ≠ 0 := by simpa [Rat.num_eq_zero] using hb
    have had : (a.den : ℚ) ≠ 0 := by exact_mod_cast a.den_nz
    have hbd : (b.den : ℚ) ≠ 0 := by exact_mod_cast b.den_nz
    have haa : a * (a.den : ℚ) = a.num := by
      nth_rewrite 1 [← Rat.num_div_den a]
      rw [div_mul_cancel₀ _ had]
    have hbb : b * (b.den : ℚ) = b.num := by
      nth_rewrite 1 [← Rat.num_div_den b]
      rw [div_mul_cancel₀ _ hbd]
    push_cast
    rw [div_eq_div_iff (mul_ne_zero had hbn) hb]
    calc (a.num : ℚ) * b.den * b = (a.num : ℚ) * (b * b.den) := by ring
      _ = (a.num : ℚ) * b.num := by rw [hbb]
      _ = (a * a.den) * b.num := by rw [haa]
      _ = a * ((a.den : ℚ) * b.num) := by ring

theorem qmulInt_eq_mul (v : ℚ) (n : ℤ) : qmulInt v n = v * n := by
  rw [qmulInt, Rat.mkRat_eq_div]
  have hd : (v.den : ℚ) ≠ 0 := by exact_mod_cast v.den_nz
  have hvv : v * (v.den : ℚ) = v.num := by
    nth_rewrite 1 [← Rat.num_div_den v]
    rw [div_mul_cancel₀ _ hd]
  push_cast
  rw [div_eq_iff hd]
  calc (v.num : ℚ) * n = (v * v.den) * n := by rw [hvv]
    _ = v * n * v.den := by ring

theorem stripLit_length {lit l rest : List Char} (h : stripLit lit l = some rest) :
    rest.length + lit.length = l.length := by
  induction lit generalizing l with
  | nil => simp [stripLit] at h; simp [h]
  | cons a as ih =>
    cases l with
    | nil => simp [stripLit] at h
    | cons c cs =>
      simp only [stripLit] at h
      split at h
      · have := ih h; simp [List.length_cons]; omega
      · exact absurd h (by simp)

theorem subAt?_lt_length {key l : List Char} {p : Nat}
    (hk : key ≠ []) (h : subAt? key l = some p) : p < l.length := by
  induction l generalizing p with
  | nil =>
    obtain ⟨a, as, rfl⟩ := List.exists_cons_of_ne_nil hk
    simp [subAt?, isLitPre, stripLit] at h
  | cons c cs ih =>
    simp only [subAt?] at h
    split at h
    · simp only [Option.some.injEq] at h
      subst h
      simp
    · cases hq : subAt? key cs with
      | none => rw [hq] at h; simp at h
      | some q =>
        rw [hq] at h
        simp only [Option.map_some', Option.some.injEq] at h
        subst h
        have := ih hq
        simp only [List.length_cons]
        omega

theorem brandStep_good {lower : List Char} {P : List (String × String)}
    {acc : Nat × Option String} {kv : String × String}
    (hkey : kv.1.toList ≠ []) (H : brandGood lower P acc) :
    brandGood lower (P ++ [kv]) (brandStep lower acc kv) := by
  obtain ⟨Hle, Hnone, Hsome⟩ := H
  unfold brandStep
  cases hsub : subAt? kv.1.toList lower with
  | none =>
    refine ⟨Hle, fun h => ⟨(Hnone h).1, ?_⟩, fun b h => ⟨?_, ?_⟩⟩
    · intro kv' hkv'
      rcases List.mem_append.mp hkv' with h' | h'
      · exact (Hnone h).2 kv' h'
      · simp at h'; subst h'; exact hsub
    · obtain ⟨kv', hmem, hrest⟩ := (Hsome b h).1
      exact ⟨kv', List.mem_append.mpr (Or.inl hmem), hrest⟩
    · intro kv' hkv' p hp
      rcases List.mem_append.mp hkv' with h' | h'
      · exact (Hsome b h).2 kv' h' p hp
      · simp at h'; subst h'; rw [hsub] at hp; exact absurd hp (by simp)
  | some p =>
    by_cases hlt : p < acc.1
    · simp only [if_pos hlt]
      refine ⟨le_of_lt (lt_of_lt_of_le hlt Hle), by simp, fun b h => ?_⟩
      simp only [Option.some.injEq] at h
      subst h
      refine ⟨⟨kv, List.mem_append.mpr (Or.inr (by simp)), rfl, hsub⟩, ?_⟩
      intro kv' hkv' p' hp'
      rcases List.mem_append.mp hkv' with h' | h'
      · cases hacc : acc.2 with
        | none => rw [(Hnone hacc).2 kv' h'] at hp'; exact absurd hp' (by simp)
        | some b' => exact le_of_lt (lt_of_lt_of_le hlt ((Hsome b' hacc).2 kv' h' p' hp'))
      · simp at h'; subst h'; rw [hsub] at hp'
        simp only [Option.some.injEq] at hp'; omega
    · simp only [if_neg hlt]
      refine ⟨Hle, fun h => ⟨(Hnone h).1, ?_⟩, fun b h => ⟨?_, ?_⟩⟩
      · exfalso
        have hplt := subAt?_lt_length hkey hsub
        have := (Hnone h).1
        omega
      · obtain ⟨kv', hmem, hrest⟩ := (Hsome b h).1
        exact ⟨kv', List.mem_append.mpr (Or.inl hmem), hrest⟩
      · intro kv' hkv' p' hp'
        rcases List.mem_append.mp hkv' with h' | h'
        · exact (Hsome b h).2 kv' h' p' hp'
        · simp at h'; subst h'; rw [hsub] at hp'
          simp only [Option.some.injEq] at hp'; omega

theorem brandFold_good {lower : List Char} (l : List (String × String))
    (hkeys : ∀ kv ∈ l, kv.1.toList ≠ []) :
    ∀ (P : List (String × String)) (acc : Nat × Option String),
      brandGood lower P acc → brandGood lower (P ++ l) (l.foldl (brandStep lower) acc) := by
  induction l with
  | nil => intro P acc H; simpa using H
  | cons kv l' ih =>
    intro P acc H
    have h1 : brandGood lower (P ++ [kv]) (brandStep lower acc kv) :=
      brandStep_good (hkeys kv (by simp)) H
    have h2 := ih (fun kv' h => hkeys kv' (by simp [h])) (P ++ [kv]) (brandStep lower acc kv) h1
    simpa [List.append_assoc] using h2

theorem brandAliases_keys_ne_nil : ∀ kv ∈ brandAliases, kv.1.toList ≠ [] := by decide

theorem find?_append_none {α : Type} {p : α → Bool} {l1 l2 : List α}
    (h : l1.find? p = none) : (l1 ++ l2).find? p = l2.find? p := by
  induction l1 with
  | nil => simp
  | cons a l ih =>
    rw [List.cons_append]
    cases ha : p a with
    | true => simp [List.find?_cons_of_pos _ ha] at h
    | false =>
      rw [List.find?_cons_of_neg _ (by simp [ha])] at h
      rw [List.find?_cons_of_neg _ (by simp [ha])]
      exact ih h

theorem applyUpdate_listing_url (d : Payload) (q : LRow) :
    (applyUpdate d q).listing_url = q.listing_url := rfl

theorem find?_map_applyUpdate (d : Payload) (l : List LRow) :
    (l.map fun q =>
        if q.listing_url == d.listing_url then applyUpdate d q else q).find?
      (fun q => q.listing_url == d.listing_url) =
    (l.find? (fun q => q.listing_url == d.listing_url)).map (applyUpdate d) := by
  induction l with
  | nil => rfl
  | cons q l ih =>
    rw [List.map_cons]
    by_cases hq : (q.listing_url == d.listing_url) = true
    · simp [List.find?_cons, applyUpdate_listing_url, hq]
    · simp only [beq_iff_eq] at ih
      simp [List.find?_cons, applyUpdate_listing_url, hq, ih, -List.find?_map]

theorem pickPrice_eq_find (l : List PMatch) :
    pickPrice l = ((l.filterMap candVal).find? inBand).map round2 := by
  induction l with
  | nil => rfl
  | cons m ms ih =>
    cases h : candVal m with
    | none => simp [pickPrice, h, List.filterMap_cons, ih]
    | some v =>
      by_cases hb : inBand v
      · simp [pickPrice, h, hb, List.filterMap_cons, List.find?_cons_of_pos]
      · simp [pickPrice, h, hb, List.filterMap_cons, List.find?_cons_of_neg, ih]

theorem isEmpty_false_of_ne_nil {α : Type} {l : List α} (h : l ≠ []) :
    l.isEmpty = false := by
  cases l with
  | nil => exact absurd rfl h
  | cons a as => rfl

theorem stepChild_skip (oracle : RChild → ChildRes) (c : RChild)
    (known : List String) (st : RunStats) (newC : Nat)
    (h : isForSale c.title = true → flairBlocked c.flair = false →
      known.contains c.url = true) :
    stepChild oracle (known, st, newC) c =
      (known, { st with threads := st.threads + 1 }, newC) := by
  unfold stepChild
  by_cases h1 : isForSale c.title = true
  · by_cases h2 : flairBlocked c.flair = true
    · simp [h1, h2]
    · have h2' : flairBlocked c.flair = false := by
        cases hfb : flairBlocked c.flair
        · rfl
        · exact absurd hfb h2
      have h3 : c.url ∈ known := by simpa using h h1 h2'
      simp [h1, h2', h3]
  · have h1' : isForSale c.title = false := by
      cases hfs : isForSale c.title
      · rfl
      · exact absurd hfs h1
    simp [h1']

theorem foldChildren_skip (oracle : RChild → ChildRes) (children : List RChild) :
    ∀ (known : List String) (st : RunStats) (newC : Nat),
      (∀ c ∈ children, isForSale c.title = true → flairBlocked c.flair = false →
        known.contains c.url = true) →
      ∃ st' : RunStats,
        children.foldl (stepChild oracle) (known, st, newC) = (known, st', newC) := by
  induction children with
  | nil => intro known st newC _; exact ⟨st, rfl⟩
  | cons c cs ih =>
    intro known st newC h
    rw [List.foldl_cons, stepChild_skip oracle c known st newC (h c (by simp))]
    exact ih known _ newC (fun c' hc' => h c' (by simp [hc']))

theorem foldl_maxByLen (xs : List String) : ∀ b : String,
    ((xs.foldl (fun b s => if b.length < s.length then s else b) b) = b ∨
      (xs.foldl (fun b s => if b.length < s.length then s else b) b) ∈ xs) ∧
    b.length ≤ (xs.foldl (fun b s => if b.length < s.length then s else b) b).length ∧
    ∀ x ∈ xs, x.length ≤ (xs.foldl (fun b s => if b.length < s.length then s else b) b).length := by
  induction xs with
  | nil => intro b; exact ⟨Or.inl rfl, le_refl _, by simp⟩
  | cons x xs ih =>
    intro b
    rw [List.foldl_cons]
    obtain ⟨hmem, hle, hall⟩ := ih (if b.length < x.length then x else b)
    refine ⟨?_, ?_, ?_⟩
    · rcases hmem with h | h
      · rw [h]
        by_cases hx : b.length < x.length
        · rw [if_pos hx]; exact Or.inr (by simp)
        · rw [if_neg hx]; exact Or.inl rfl
      · exact Or.inr (List.mem_cons_of_mem _ h)
    · refine le_trans ?_ hle
      by_cases hx : b.length < x.length
      · rw [if_pos hx]; omega
      · rw [if_neg hx]
    · intro y hy
      rcases List.mem_cons.mp hy with h | h
      · subst h
        refine le_trans ?_ hle
        by_cases hx : b.length < y.length
        · rw [if_pos hx]
        · rw [if_neg hx]; omega
      · exact hall y h

theorem maxByLen_spec (l : List String) (h : l ≠ []) :
    maxByLen l ∈ l ∧ ∀ x ∈ l, x.length ≤ (maxByLen l).length := by
  cases l with
  | nil => exact absurd rfl h
  | cons x xs =>
    obtain ⟨hmem, hle, hall⟩ := foldl_maxByLen xs x
    constructor
    · show xs.foldl _ x ∈ x :: xs
      rcases hmem with h' | h'
      · rw [h']; exact List.mem_cons_self _ _
      · exact List.mem_cons_of_mem _ h'
    · intro y hy
      rcases List.mem_cons.mp hy with h' | h'
      · subst h'; exact hle
      · exact hall y h'

theorem opComments_nil_of_nonMod_nil {opAuthor : String} {cs : List RComment}
    (h : nonModComments cs = []) : opComments opAuthor cs = [] := by
  have hkept : keptComments cs = [] := List.map_eq_nil_iff.mp h
  simp [opComments, hkept]

/-- Cross-multiplied facts used to discharge ratio hypotheses in the C3 witness. -/
theorem ratioFacts :
    ((900 : ℚ) / 1000 ≤ 9 / 10) ∧ ((11 : ℚ) / 10 < 1200 / 1000) := by norm_num

/-! ## Claim theorems -/

/-- Claim C1: `upsert_listing` returns `is_new = true` iff no row with the
payload's `listing_url` existed before the call; when a row exists it returns
that row's id and changes no row's `id`, `listing_url`, `source_id` or
`date_found`; and upserting the same payload twice yields the same id with the
second call never counted as new. -/
theorem upsertListing_dedup_semantics :
    ∀ (now now2 : String) (d : Payload) (db : DBState),
      ((upsertListing now d db).1.2 = true ↔
        ∀ r ∈ db.rows, r.listing_url ≠ d.listing_url) ∧
      (∀ r, db.rows.find? (fun q => q.listing_url == d.listing_url) = some r →
        (upsertListing now d db).1.1 = r.id) ∧
      ((∃ r ∈ db.rows, r.listing_url = d.listing_url) →
        (upsertListing now d db).2.rows.map
            (fun r => (r.id, r.listing_url, r.source_id, r.date_found)) =
          db.rows.map (fun r => (r.id, r.listing_url, r.source_id, r.date_found))) ∧
      ((upsertListing now2 d (upsertListing now d db).2).1.1 =
          (upsertListing now d db).1.1 ∧
        (upsertListing now2 d (upsertListing now d db).2).1.2 = false) := by
  intro now now2 d db
  cases hf : db.rows.find? (fun q => q.listing_url == d.listing_url) with
  | none =>
    have hall := List.find?_eq_none.mp hf
    refine ⟨⟨fun _ r hr heq => hall r hr (by simp [heq]), fun _ => by
      simp [upsertListing, hf]⟩, fun r hr => by simp [hf] at hr,
      fun ⟨r, hr, heq⟩ => absurd (by simp [heq] : (r.listing_url == d.listing_url) = true)
        (hall r hr), ?_⟩
    have h2 : ((db.rows ++ [newRow now db.nextId d]).find?
        (fun q => q.listing_url == d.listing_url)) = some (newRow now db.nextId d) := by
      rw [find?_append_none hf]
      simp [List.find?_cons, newRow]
    simp only [upsertListing, hf]
    simp only [upsertListing, h2]
    exact ⟨rfl, trivial⟩
  | some r0 =>
    have hmem := List.mem_of_find?_eq_some hf
    have hpred := List.find?_some hf
    refine ⟨⟨fun hfalse => absurd hfalse (by simp [upsertListing, hf]),
      fun hall => absurd (eq_of_beq hpred) (hall r0 hmem)⟩,
      fun r hr => by
        simp only [Option.some.injEq] at hr
        subst hr
        simp [upsertListing, hf],
      fun _ => ?_, ?_⟩
    · simp only [upsertListing, hf, List.map_map]
      refine List.map_congr_left fun q hq => ?_
      by_cases hc : (q.listing_url == d.listing_url) = true
      · simp [Function.comp, hc, applyUpdate]
      · simp [Function.comp, hc]
    · have h2 := find?_map_applyUpdate d db.rows
      rw [hf, Option.map_some'] at h2
      simp only [upsertListing, hf]
      simp only [upsertListing, h2]
      exact ⟨rfl, trivial⟩

/-- Witness for C1: after inserting the sample payload, a second upsert finds the
row, returns its id and preserves the immutable projections. -/
theorem upsertListing_dedup_semantics_witness :
    (upsertListing "t1" samplePayload sampleStore).1.1 =
      (newRow "t0" 5 samplePayload).id ∧
    (upsertListing "t1" samplePayload sampleStore).2.rows.map
        (fun r => (r.id, r.listing_url, r.source_id, r.date_found)) =
      sampleStore.rows.map (fun r => (r.id, r.listing_url, r.source_id, r.date_found)) :=
  ⟨(upsertListing_dedup_semantics "t1" "t2" samplePayload sampleStore).2.1
      (newRow "t0" 5 samplePayload) (by decide),
   (upsertListing_dedup_semantics "t1" "t2" samplePayload sampleStore).2.2.1
      ⟨newRow "t0" 5 samplePayload, by decide, rfl⟩⟩

/-- Claim C2: `extract_price` returns the first `PRICE_RE` match whose numeric value
lies within the plausible resale band `[100, 500000]`, skipping out-of-band
candidates; "$1,234.56" yields 1234.56, "8.5k" yields 8500, "18k gold" yields no
price (karat guard), values below 100 or above 500000 are non-matches, and `none`
is returned when no candidate survives. -/
theorem extractPrice_first_valid_match :
    (∀ s : String,
      extractPrice s = (((priceMatches s).filterMap candVal).find? inBand).map round2) ∧
    extractPrice "$1,234.56" = some (mkRat 123456 100) ∧
    extractPrice "8.5k" = some 8500 ∧
    extractPrice "18k gold" = none ∧
    extractPrice "$50" = none ∧
    extractPrice "$600,000" = none ∧
    (∀ s : String, (∀ v ∈ (priceMatches s).filterMap candVal, inBand v = false) →
      extractPrice s = none) := by
  refine ⟨fun s => pickPrice_eq_find _, by decide, by decide, by decide, by decide,
    by decide, fun s hall => ?_⟩
  rw [extractPrice, pickPrice_eq_find, List.find?_eq_none.mpr ?_, Option.map_none']
  intro v hv
  simp [hall v hv]

/-- Witness for C2: the all-candidates-out-of-band hypothesis discharged at a
concrete input ("$50" has one candidate, 50, which is below the band). -/
theorem extractPrice_first_valid_match_witness :
    extractPrice "selling for $50" = none :=
  extractPrice_first_valid_match.2.2.2.2.2.2 "selling for $50" (by decide)

/-- Claim C3: for every positive asking price, the price rating is "Great" when
asking/market ≤ 0.90, "Good" on (0.90, 1.00], "Fair" on (1.00, 1.10], "High" above
1.10, and "N/A" when the market price is absent or ≤ 0; the reported
percentage-of-market is the ratio times 100 rounded to one decimal and the
reported market price is rounded to two decimals. -/
theorem checkPrice_rating_thresholds :
    (∀ lp m : ℚ, 0 < lp → 0 < m →
      (lp / m ≤ 9 / 10 → (checkPrice lp (some m)).rating = "Great") ∧
      (9 / 10 < lp / m → lp / m ≤ 1 → (checkPrice lp (some m)).rating = "Good") ∧
      (1 < lp / m → lp / m ≤ 11 / 10 → (checkPrice lp (some m)).rating = "Fair") ∧
      (11 / 10 < lp / m → (checkPrice lp (some m)).rating = "High") ∧
      (checkPrice lp (some m)).pctOfMarket = some (round1 (lp / m * 100)) ∧
      (checkPrice lp (some m)).marketOut = some (round2 m)) ∧
    (∀ lp m : ℚ, 0 < lp → m ≤ 0 → (checkPrice lp (some m)).rating = "N/A") ∧
    (∀ lp : ℚ, 0 < lp → (checkPrice lp none).rating = "N/A") := by
  have h910 : (mkRat 9 10 : ℚ) = 9 / 10 := by norm_num [Rat.mkRat_eq_div]
  have h1110 : (mkRat 11 10 : ℚ) = 11 / 10 := by norm_num [Rat.mkRat_eq_div]
  refine ⟨fun lp m hlp hm => ?_, fun lp m hlp hm0 => ?_, fun lp hlp => ?_⟩
  · have hmne : m ≠ 0 := ne_of_gt hm
    have hmnle : ¬ m ≤ 0 := not_le.mpr hm
    simp only [checkPrice, ratePrice, if_neg (not_le.mpr hlp), if_neg hmne,
      if_neg hmnle, qdiv_eq_div, h910, h1110]
    refine ⟨fun h => by rw [if_pos h],
      fun h1 h2 => by rw [if_neg (not_le.mpr h1), if_pos h2],
      fun h1 h2 => by
        rw [if_neg (not_le.mpr (by linarith)), if_neg (not_le.mpr h1), if_pos h2],
      fun h1 => by
        rw [if_neg (not_le.mpr (by linarith)), if_neg (not_le.mpr (by linarith)),
          if_neg (not_le.mpr h1)],
      ?_, trivial⟩
    rw [qmulInt_eq_mul]
    norm_num
  · by_cases hm : m = 0
    · simp [checkPrice, not_le.mpr hlp, hm]
    · simp [checkPrice, ratePrice, not_le.mpr hlp, hm, if_pos hm0]
  · simp [checkPrice, not_le.mpr hlp]

/-- Witness for C3 at concrete prices: 900 vs market 1000 is "Great", 1200 vs 1000
is "High", market 0 is "N/A". -/
theorem checkPrice_rating_thresholds_witness :
    (checkPrice 900 (some 1000)).rating = "Great" ∧
    (checkPrice 1200 (some 1000)).rating = "High" ∧
    (checkPrice 900 (some 0)).rating = "N/A" :=
  ⟨(checkPrice_rating_thresholds.1 900 1000 (by decide) (by decide)).1 ratioFacts.1,
   (checkPrice_rating_thresholds.1 1200 1000 (by decide) (by decide)).2.2.2.1 ratioFacts.2,
   checkPrice_rating_thresholds.2.1 900 0 (by decide) (by decide)⟩

/-- Claim C4: for every input text, `extract_brand` returns the brand whose alias
keyword occurs at the leftmost position in the lowercased text (and `none` when no
alias keyword occurs); in particular "Rolex Submariner, would trade for a Royal Oak"
yields "Rolex" because the Rolex keyword's position precedes Royal Oak's. -/
theorem extractBrand_leftmost :
    (∀ s : String,
      (extractBrand s = none ↔ ∀ kv ∈ brandAliases, subAt? kv.1.toList (lowerL s) = none) ∧
      (∀ b, extractBrand s = some b →
        ∃ kv ∈ brandAliases, kv.2 = b ∧ ∃ p, subAt? kv.1.toList (lowerL s) = some p ∧
          ∀ kv' ∈ brandAliases, ∀ p', subAt? kv'.1.toList (lowerL s) = some p' → p ≤ p')) ∧
    extractBrand "Rolex Submariner, would trade for a Royal Oak" = some "Rolex" := by
  constructor
  · intro s
    have hinit : brandGood (lowerL s) [] ((lowerL s).length, none) := by
      refine ⟨le_refl _, fun _ => ⟨rfl, by simp⟩, fun b h => by simp at h⟩
    have H := brandFold_good brandAliases (fun kv h => brandAliases_keys_ne_nil kv h)
      [] ((lowerL s).length, none) hinit
    simp only [List.nil_append] at H
    obtain ⟨Hle, Hnone, Hsome⟩ := H
    constructor
    · constructor
      · intro h
        exact (Hnone h).2
      · intro hall
        cases hacc : (brandAliases.foldl (brandStep (lowerL s))
            ((lowerL s).length, none)).2 with
        | none => exact hacc
        | some b =>
          obtain ⟨kv, hmem, _, hpos⟩ := (Hsome b hacc).1
          rw [hall kv hmem] at hpos
          exact absurd hpos (by simp)
    · intro b h
      obtain ⟨⟨kv, hmem, hval, hpos⟩, hmin⟩ := Hsome b h
      exact ⟨kv, hmem, hval, _, hpos, hmin⟩
  · decide

/-- Claim C5 counterexample: for the even-length price list [100, 200] the code
returns the upper-middle element 200 (index `len // 2 = 1` of the ascending
sort), not the lower-middle element 100 that the claim asserts. -/
theorem marketplaceMedian_even_counterexample :
    marketplaceMedian [⟨some 100, none⟩, ⟨some 200, none⟩] = some 200 ∧
    ¬ marketplaceMedian [⟨some 100, none⟩, ⟨some 200, none⟩] = some 100 := by
  exact ⟨by decide, by decide⟩

/-- Claim C5 (amended): the marketplace fallback sorts the positive listing
prices ascending and returns the element at index `len // 2`; [100, 300, 200]
yields 200, and even-length lists take the upper-middle element ([100, 200]
yields 200), rather than averaging the two central values. -/
theorem marketplaceMedian_sorted_middle :
    (∀ items : List MarketItem, positivePrices items ≠ [] →
      ∃ l : List ℚ, l.Sorted (· ≤ ·) ∧ l.Perm (positivePrices items) ∧
        marketplaceMedian items = some (l.getD ((positivePrices items).length / 2) 0)) ∧
    marketplaceMedian [⟨some 100, none⟩, ⟨some 300, none⟩, ⟨some 200, none⟩] = some 200 ∧
    marketplaceMedian [⟨some 100, none⟩, ⟨some 200, none⟩] = some 200 ∧
    (∀ items : List MarketItem, positivePrices items = [] →
      marketplaceMedian items = none) := by
  refine ⟨fun items h => ?_, by decide, by decide, fun items h => ?_⟩
  · refine ⟨List.insertionSort (· ≤ ·) (positivePrices items),
      List.sorted_insertionSort _ _, List.perm_insertionSort _ _, ?_⟩
    simp [marketplaceMedian, h]
  · simp [marketplaceMedian, h]

/-- Witness for C5 (amended) at the concrete even-length input. -/
theorem marketplaceMedian_sorted_middle_witness :
    ∃ l : List ℚ, l.Sorted (· ≤ ·) ∧
      l.Perm (positivePrices [⟨some 100, none⟩, ⟨some 200, none⟩]) ∧
      marketplaceMedian [⟨some 100, none⟩, ⟨some 200, none⟩] =
        some (l.getD ((positivePrices
          [⟨some 100, none⟩, ⟨some 200, none⟩]).length / 2) 0) :=
  marketplaceMedian_sorted_middle.1 _ (by decide)

/-- Claim C6 counterexample: an index page that parses to zero stubs increments
the error count and stops the run, but does not set the blocked flag — the
claim's "blocked flag is set to true" fails for the zero-stub case. -/
theorem forumRun_zero_stubs_counterexample :
    (forumRun (fun _ => StubRes.workerErr) [FPage.fetched []] [] {}).blocked = false ∧
    (forumRun (fun _ => StubRes.workerErr) [FPage.fetched []] [] {}).errorCount = 1 :=
  ⟨rfl, rfl⟩

/-- Claim C6 (amended): a failed index-page fetch increments the error count,
sets the blocked flag and stops the pagination loop early (later pages are
never consulted, no exception escapes); an index page with zero parsed stubs
increments the error count and stops early but leaves the blocked flag
unchanged. -/
theorem forumRun_index_page_failures :
    ∀ (oracle : Stub → StubRes) (rest : List FPage) (known : List String)
      (st : RunStats),
      forumRun oracle (FPage.fetchFail :: rest) known st =
        { st with errorCount := st.errorCount + 1, blocked := true } ∧
      forumRun oracle (FPage.fetched [] :: rest) known st =
        { st with errorCount := st.errorCount + 1 } :=
  fun _ _ _ _ => ⟨rfl, rfl⟩

/-- Claim C7: once a fetched feed page contributes zero genuinely new items
(every for-sale, non-wanted post on it is already known by URL), no further
index page is fetched — the run's result does not depend on the remaining
responses; the same holds when the page's response carries no continuation
cursor. -/
theorem redditRun_stop_conditions :
    ∀ (oracle : RChild → ChildRes) (children : List RChild) (cursor : Option String)
      (rest rest' : List RResp) (known : List String) (st : RunStats),
      ((∀ c ∈ children, isForSale c.title = true → flairBlocked c.flair = false →
          known.contains c.url = true) →
        redditRun oracle (RResp.page children cursor :: rest) known st =
          redditRun oracle (RResp.page children cursor :: rest') known st) ∧
      (cursorDone cursor = true →
        redditRun oracle (RResp.page children cursor :: rest) known st =
          redditRun oracle (RResp.page children cursor :: rest') known st) := by
  intro oracle children cursor rest rest' known st
  by_cases hemp : children.isEmpty = true
  · constructor <;> intro _ <;> simp only [redditRun, hemp, if_pos]
  · have hemp' : children.isEmpty = false := by
      cases h : children.isEmpty
      · rfl
      · exact absurd h hemp
    constructor
    · intro h
      obtain ⟨st', hfold⟩ := foldChildren_skip oracle children known
        { st with pages := st.pages + 1 } 0 h
      simp only [redditRun, hemp', Bool.false_eq_true, if_neg, hfold]
      by_cases hcur : cursorDone cursor = true <;> simp [hcur]
    · intro hcur
      simp only [redditRun, hemp', Bool.false_eq_true, if_neg, hcur, if_pos]

/-- Witness for C7: with the only for-sale post already known, appending a
further page to the response sequence does not change the run's result. -/
theorem redditRun_stop_conditions_witness :
    redditRun (fun _ => ChildRes.parseNone)
        [RResp.page [⟨"WTS 2007 Sub", "WTS", "u1"⟩] (some "c"), RResp.fetchFail]
        ["u1"] {} =
      redditRun (fun _ => ChildRes.parseNone)
        [RResp.page [⟨"WTS 2007 Sub", "WTS", "u1"⟩] (some "c")] ["u1"] {} :=
  (redditRun_stop_conditions (fun _ => ChildRes.parseNone)
      [⟨"WTS 2007 Sub", "WTS", "u1"⟩] (some "c") [RResp.fetchFail] [] ["u1"] {}).1
    (by decide)

/-- Claim C8 counterexample: the combined dict of `run_all_scrapers` carries no
"pages" or "threads" entry at all, so the combined statistics do not equal the
field-wise sum over pages fetched (2 here) or items seen (7 here). -/
theorem combineStats_pages_counterexample :
    (combineStats [⟨[("pages", 2), ("threads", 7), ("new", 1)],
        some true⟩]).counters.lookup "pages" = none ∧
    ([(⟨[("pages", 2), ("threads", 7), ("new", 1)], some true⟩ : RawStats)].map
        (fun s => getCounter s "pages")).sum = 2 ∧
    (combineStats [⟨[("pages", 2), ("threads", 7), ("new", 1)],
        some true⟩]).counters.lookup "threads" = none :=
  ⟨rfl, rfl, rfl⟩

/-- Claim C8 (amended): the combined statistics equal the field-wise sums of the
adapters' new, updated, priced and error counters (missing keys counting as 0),
and the combined blocked flag is the logical OR of the adapters' blocked flags;
pages fetched and items seen are not aggregated and appear only in the
per-source list. -/
theorem combineStats_sums_and_or :
    ∀ l : List RawStats,
      (combineStats l).counters.lookup "new" =
        some ((l.map (fun s => getCounter s "new")).sum) ∧
      (combineStats l).counters.lookup "updated" =
        some ((l.map (fun s => getCounter s "updated")).sum) ∧
      (combineStats l).counters.lookup "priced" =
        some ((l.map (fun s => getCounter s "priced")).sum) ∧
      (combineStats l).counters.lookup "errors" =
        some ((l.map (fun s => getCounter s "errors")).sum) ∧
      (combineStats l).blocked = l.any getBlocked ∧
      (combineStats l).sourcesList = l :=
  fun _ => ⟨rfl, rfl, rfl, rfl, rfl, rfl⟩

/-- Claim C9: `_fetch_op_comment` selects, over the non-deleted non-AutoModerator
comments: an OP comment with a price pattern if any exists; else the longest OP
comment; else the longest remaining comment with a price pattern; else the
longest remaining comment; and the empty string when nothing remains. -/
theorem fetchOpComment_precedence :
    ∀ (opAuthor : String) (cs : List RComment),
      ((opComments opAuthor cs).filter hasPricePattern ≠ [] →
        fetchOpComment opAuthor cs ∈ (opComments opAuthor cs).filter hasPricePattern) ∧
      ((opComments opAuthor cs).filter hasPricePattern = [] →
        opComments opAuthor cs ≠ [] →
        fetchOpComment opAuthor cs ∈ opComments opAuthor cs ∧
        ∀ b ∈ opComments opAuthor cs,
          b.length ≤ (fetchOpComment opAuthor cs).length) ∧
      (opComments opAuthor cs = [] →
        (nonModComments cs).filter hasPricePattern ≠ [] →
        fetchOpComment opAuthor cs ∈ (nonModComments cs).filter hasPricePattern ∧
        ∀ b ∈ (nonModComments cs).filter hasPricePattern,
          b.length ≤ (fetchOpComment opAuthor cs).length) ∧
      (opComments opAuthor cs = [] →
        (nonModComments cs).filter hasPricePattern = [] →
        nonModComments cs ≠ [] →
        fetchOpComment opAuthor cs ∈ nonModComments cs ∧
        ∀ b ∈ nonModComments cs, b.length ≤ (fetchOpComment opAuthor cs).length) ∧
      (nonModComments cs = [] → fetchOpComment opAuthor cs = "") := by
  intro opAuthor cs
  by_cases hops : opComments opAuthor cs = []
  · refine ⟨fun hP => ?_, fun _ hne => absurd hops hne, fun _ hP => ?_,
      fun _ hPe hne => ?_, fun hnm => ?_⟩
    · rw [hops] at hP
      exact absurd rfl hP
    · have hres : fetchOpComment opAuthor cs =
          maxByLen ((nonModComments cs).filter hasPricePattern) := by
        simp [fetchOpComment, hops, isEmpty_false_of_ne_nil hP]
      rw [hres]
      exact maxByLen_spec _ hP
    · have hres : fetchOpComment opAuthor cs = maxByLen (nonModComments cs) := by
        simp [fetchOpComment, hops, hPe, isEmpty_false_of_ne_nil hne]
      rw [hres]
      exact maxByLen_spec _ hne
    · simp [fetchOpComment, hops, hnm]
  · refine ⟨fun hP => ?_, fun hPe _ => ?_, fun h _ => absurd h hops,
      fun h _ _ => absurd h hops,
      fun hnm => absurd (opComments_nil_of_nonMod_nil hnm) hops⟩
    · have hres : fetchOpComment opAuthor cs =
          maxByLen ((opComments opAuthor cs).filter hasPricePattern) := by
        simp [fetchOpComment, isEmpty_false_of_ne_nil hops, isEmpty_false_of_ne_nil hP]
      rw [hres]
      exact (maxByLen_spec _ hP).1
    · have hres : fetchOpComment opAuthor cs = maxByLen (opComments opAuthor cs) := by
        simp [fetchOpComment, isEmpty_false_of_ne_nil hops, hPe]
      rw [hres]
      exact maxByLen_spec _ hops

/-- Witness for C9: an OP comment containing a price pattern is selected. -/
theorem fetchOpComment_precedence_witness :
    fetchOpComment "seller"
        [⟨"seller", "Asking $500 shipped CONUS"⟩, ⟨"other", "lovely watch"⟩] ∈
      (opComments "seller"
          [⟨"seller", "Asking $500 shipped CONUS"⟩, ⟨"other", "lovely watch"⟩]).filter
        hasPricePattern :=
  (fetchOpComment_precedence "seller"
      [⟨"seller", "Asking $500 shipped CONUS"⟩, ⟨"other", "lovely watch"⟩]).1
    (by decide)

/-- Claim C10: `extract_model` returns `none` whenever the brand argument is absent
or does not contain "rolex" case-insensitively — only a Rolex model table exists. -/
theorem extractModel_none_without_rolex :
    (∀ t : String, extractModel t none = none) ∧
    (∀ (t b : String), containsSub (lowerL b) ("rolex".toList) = false →
      extractModel t (some b) = none) := by
  constructor
  · intro t; rfl
  · intro t b h
    have h' : containsSub (lowerL b) ['r', 'o', 'l', 'e', 'x'] = false := h
    simp [extractModel, h']

/-- Witness for C10 at a concrete non-Rolex brand. -/
theorem extractModel_none_without_rolex_witness :
    extractModel "FS: Omega Speedmaster Professional 3570.50" (some "Omega") = none :=
  extractModel_none_without_rolex.2 _ _ (by decide)

end WatchFinder
